import Mathlib

/-!
Shallow embedding of the college-football-rankings repository.

The iterative solver is `src/college_football_rankings/iterative.py`
(`norm`, `max_val_diff`, `power`).  Python dictionaries are modelled as
association lists that keep insertion order; floating point values are
modelled as rationals; a raised Python exception is modelled by the
`Except PyError` monad.  The pseudo-random stream produced by
`np.random.RandomState(random_state)` is modelled as an explicit function
`Nat → ℚ` from which the solver draws its initial values in order.
-/

/-!
The four rational ring operations of the standard library are marked
irreducible, which blocks kernel evaluation of concrete runs.  The
embedding therefore computes with the following definitionally
transparent equivalents (each proved equal to the standard operation).
-/

/-- Rational addition, kernel-reducible. -/
def qadd (a b : ℚ) : ℚ := mkRat (a.num * b.den + b.num * a.den) (a.den * b.den)

/-- Rational subtraction, kernel-reducible. -/
def qsub (a b : ℚ) : ℚ := mkRat (a.num * b.den - b.num * a.den) (a.den * b.den)

/-- Rational multiplication, kernel-reducible. -/
def qmul (a b : ℚ) : ℚ := mkRat (a.num * b.num) (a.den * b.den)

/-- Rational division, kernel-reducible. -/
def qdiv (a b : ℚ) : ℚ := qmul a (Rat.divInt b.den b.num)

abbrev Team := String

/-- One week's entry of a team's record: `(rival, balance)` as in the
tuples stored by `create_teams_records_dict`. -/
abbrev MatchRec := Option Team × Option Int

/-- A team's per-week records, `Dict[int, Tuple[Optional[str], Optional[int]]]`. -/
abbrev Records := List (Nat × MatchRec)

/-- `teams_records` argument of `power`. -/
abbrev TeamsRecords := List (Team × Records)

/-- `Dict[str, float]` of team powers. -/
abbrev PowerMap := List (Team × ℚ)

/-- The Python exceptions that the embedded code can raise. -/
inductive PyError
  | equilibriumError
  | keyError
  | valueError
  | typeError
deriving DecidableEq

instance : DecidableEq TeamsRecords := List.hasDecEq

instance {ε α : Type} [DecidableEq ε] [DecidableEq α] : DecidableEq (Except ε α) := fun x y =>
  match x, y with
  | Except.ok a, Except.ok b =>
    if h : a = b then Decidable.isTrue (by rw [h])
    else Decidable.isFalse (fun hc => h (Except.ok.inj hc))
  | Except.error a, Except.error b =>
    if h : a = b then Decidable.isTrue (by rw [h])
    else Decidable.isFalse (fun hc => h (Except.error.inj hc))
  | Except.ok _, Except.error _ => Decidable.isFalse (fun hc => Except.noConfusion hc)
  | Except.error _, Except.ok _ => Decidable.isFalse (fun hc => Except.noConfusion hc)

/-- Python dictionary lookup `d[k]` (as an `Option`). -/
def dlookup {κ ν : Type} [DecidableEq κ] (k : κ) : List (κ × ν) → Option ν
  | [] => none
  | (k', v) :: rest => if k = k' then some v else dlookup k rest

/-- Python dictionary assignment `d[k] = v`: replaces in place when the key
is present, appends otherwise (insertion order semantics). -/
def dinsert {κ ν : Type} [DecidableEq κ] (k : κ) (v : ν) : List (κ × ν) → List (κ × ν)
  | [] => [(k, v)]
  | (k', v') :: rest => if k = k' then (k, v) :: rest else (k', v') :: dinsert k v rest

/-- Python `list(d.values())`. -/
def dvalues {κ ν : Type} (d : List (κ × ν)) : List ν := d.map Prod.snd

/-- Python `max(list)`: `none` models the `ValueError` on an empty list. -/
def listMax : List ℚ → Option ℚ
  | [] => none
  | x :: xs => some (xs.foldl max x)

/-- Python `min(list)`: `none` models the `ValueError` on an empty list. -/
def listMin : List ℚ → Option ℚ
  | [] => none
  | x :: xs => some (xs.foldl min x)

/-- `iterative.norm`: normalize dictionary values.  Returns `none` exactly
when Python would raise `ValueError` (empty value list). -/
def norm (d : PowerMap) : Option PowerMap :=
  match listMax (dvalues d), listMin (dvalues d) with
  | some maxVal, some minVal =>
    if qsub maxVal minVal = 0 then some (d.map (fun p => (p.1, qdiv 1 2)))
    else some (d.map (fun p => (p.1, qdiv (qsub p.2 minVal) (qsub maxVal minVal))))
  | _, _ => none

/-- `iterative.max_val_diff`: max of `|a - b|` over zipped values
(`none` models the `ValueError` on empty input). -/
def maxValDiff (d1 d2 : PowerMap) : Option ℚ :=
  listMax (List.zipWith (fun a b => |qsub a b|) (dvalues d1) (dvalues d2))

/-- `np.clip(balance, -1, 1)`. -/
def clip (b : Int) : Int := max (-1) (min 1 b)

/-- Contribution of one week's record `(rival, balance)` to a team's new
power, given the old powers.  A `balance` of `None` contributes `0`;
otherwise `teams_power[rival]` is looked up and a missing key raises
`KeyError`, exactly as in the body of `power`. -/
def contrib (teamsPower : PowerMap) (score : Bool) (r : MatchRec) : Except PyError ℚ :=
  match r.2 with
  | none => Except.ok 0
  | some balance =>
    let b : Int := if score then balance else clip balance
    match r.1 with
    | none => Except.error PyError.keyError
    | some rival =>
      match dlookup rival teamsPower with
      | none => Except.error PyError.keyError
      | some rivalPower =>
        if 0 < b then Except.ok (qmul rivalPower (b : ℚ))
        else Except.ok (qmul (qsub 1 rivalPower) (b : ℚ))

/-- New (unnormalized) power of one team: sum of the contributions of its
weekly records, in week order, starting from `0`. -/
def teamNewPower (teamsPower : PowerMap) (score : Bool) (recs : Records) : Except PyError ℚ :=
  recs.foldlM (fun acc wr => (contrib teamsPower score wr.2).map (fun c => qadd acc c)) 0

/-- One relaxation sweep of `power`'s inner `for name in teams_power.keys()`
loop: every team's new power is computed from the old `teamsPower`. -/
def relaxStep (teamsRecords : TeamsRecords) (teamsPower : PowerMap) (score : Bool) :
    Except PyError PowerMap :=
  teamsRecords.mapM (fun p => (teamNewPower teamsPower score p.2).map (fun v => (p.1, v)))

/-- One relaxation sweep followed by `norm`, i.e. the body of the inner
loop of `power` up to the convergence test. -/
def stepNorm (teamsRecords : TeamsRecords) (score : Bool) (teamsPower : PowerMap) :
    Except PyError PowerMap :=
  match relaxStep teamsRecords teamsPower score with
  | Except.error e => Except.error e
  | Except.ok stepped =>
    match norm stepped with
    | some d => Except.ok d
    | none => Except.error PyError.valueError

/-- The convergence threshold `1e-6` of `power`. -/
def convEps : ℚ := qdiv 1 1000000

/-- The inner `for _ in range(100)` loop of `power`: returns `some` map on
convergence, `none` when the round budget is exhausted. -/
def innerLoop (teamsRecords : TeamsRecords) (score : Bool) :
    Nat → PowerMap → Except PyError (Option PowerMap)
  | 0, _ => Except.ok none
  | Nat.succ n, teamsPower =>
    match stepNorm teamsRecords score teamsPower with
    | Except.error e => Except.error e
    | Except.ok normed =>
      match maxValDiff teamsPower normed with
      | none => Except.error PyError.valueError
      | some d =>
        if d < convEps then Except.ok (some normed)
        else innerLoop teamsRecords score n normed

/-- `{name: rnd.random() for name in teams_records.keys()}`: the `i`-th team
receives the `start + i`-th draw of the random stream. -/
def initPowers (stream : Nat → ℚ) (start : Nat) (teamsRecords : TeamsRecords) : PowerMap :=
  teamsRecords.enum.map (fun p => (p.2.1, stream (start + p.1)))

/-- The outer `for _ in range(3)` loop of `power`; `idx` counts how many
random draws previous attempts consumed. -/
def powerAux (teamsRecords : TeamsRecords) (score : Bool) (stream : Nat → ℚ) :
    Nat → Nat → Except PyError PowerMap
  | 0, _ => Except.error PyError.equilibriumError
  | Nat.succ t, idx =>
    match innerLoop teamsRecords score 100 (initPowers stream idx teamsRecords) with
    | Except.error e => Except.error e
    | Except.ok (some d) => Except.ok d
    | Except.ok none => powerAux teamsRecords score stream t (idx + teamsRecords.length)

/-- `iterative.power`: 3 random restarts of 100 relaxation rounds each. -/
def power (teamsRecords : TeamsRecords) (score : Bool) (stream : Nat → ℚ) :
    Except PyError PowerMap :=
  powerAux teamsRecords score stream 3 0

/-!
Embedding of `create_teams_records_dict`, `filter_week` and `evaluate`
from `src/college_football_ranking/__init__.py`.
-/

/-- The fields of a raw game dictionary that the aggregator reads. -/
structure RawGame where
  week : Nat
  home_team : Team
  away_team : Team
  home_points : Option Int
  away_points : Option Int

/-- The two per-side point differences of one game.  The source checks
only `game["home_points"] is not None` before subtracting, so a game with
home points present but away points missing raises `TypeError`. -/
def gameDiffs (hp ap : Option Int) : Except PyError (Option Int × Option Int) :=
  match hp with
  | none => Except.ok (none, none)
  | some h =>
    match ap with
    | none => Except.error PyError.typeError
    | some a => Except.ok (some (h - a), some (a - h))

/-- `teams_dict[team].update({week: rec})` creating the inner dict on first
sight of the team. -/
def insertRecord (d : TeamsRecords) (t : Team) (w : Nat) (r : MatchRec) : TeamsRecords :=
  match dlookup t d with
  | some recs => dinsert t (dinsert w r recs) d
  | none => dinsert t [(w, r)] d

/-- The main loop of `create_teams_records_dict`: both sides of every game
are inserted. -/
def processGames : List RawGame → TeamsRecords → Except PyError TeamsRecords
  | [], d => Except.ok d
  | g :: gs, d =>
    match gameDiffs g.home_points g.away_points with
    | Except.error e => Except.error e
    | Except.ok (hd, ad) =>
      processGames gs
        (insertRecord (insertRecord d g.home_team g.week (some g.away_team, hd))
          g.away_team g.week (some g.home_team, ad))

/-- The `last_week` accumulator of `create_teams_records_dict`. -/
def maxWeek (games : List RawGame) : Nat := games.foldl (fun m g => max m g.week) 0

/-- Body of the gap-filling loop: `if i not in records: records[i] = (None, None)`. -/
def fillOne (recs : Records) (i : Nat) : Records :=
  match dlookup i recs with
  | some _ => recs
  | none => dinsert i (none, none) recs

/-- The gap-filling loop `for i in range(1, last_week + 1)`. -/
def gapFill (recs : Records) (lastWeek : Nat) : Records :=
  (List.range' 1 lastWeek).foldl fillOne recs

/-- `create_teams_records_dict`. -/
def createTeamsRecords (games : List RawGame) : Except PyError TeamsRecords :=
  match processGames games [] with
  | Except.error e => Except.error e
  | Except.ok d => Except.ok (d.map (fun p => (p.1, gapFill p.2 (maxWeek games))))

/-- `filter_week`: every record of a week after the cutoff is replaced by
the `(None, None)` placeholder. -/
def filterWeek (tr : TeamsRecords) (week : Nat) : TeamsRecords :=
  tr.map (fun p =>
    (p.1, p.2.map (fun q => (q.1, if week < q.1 then ((none, none) : MatchRec) else q.2))))

/-- `t` appears in at least one game of the list (as home or away team). -/
def appearsIn (t : Team) (games : List RawGame) : Prop :=
  ∃ g ∈ games, g.home_team = t ∨ g.away_team = t

instance (t : Team) (games : List RawGame) : Decidable (appearsIn t games) :=
  List.decidableBEx _ games

/-- Some game of the list is scheduled for team `t` in week `w`. -/
def hasGameAt (t : Team) (w : Nat) (games : List RawGame) : Prop :=
  ∃ g ∈ games, g.week = w ∧ (g.home_team = t ∨ g.away_team = t)

instance (t : Team) (w : Nat) (games : List RawGame) : Decidable (hasGameAt t w games) :=
  List.decidableBEx _ games

/-!
Embedding of the `Game` dataclass and `Schedule.filter_score` from
`src/college_football_rankings/__init__.py`.
-/

/-- The `Game` dataclass (one team's point of view of a fixture). -/
structure Game where
  season : Int
  week : Nat
  season_type : String
  start_date : String
  start_time_tbd : Bool
  neutral_site : Bool
  conference_game : Bool
  attendance : Option Int
  venue : String
  team_points : Option Int
  team_line_scores : Option (List Int)
  team_post_win_prob : Option ℚ
  opponent : Team
  opponent_conference : String
  opponent_points : Option Int
  opponent_line_scores : Option (List Int)
  opponent_post_win_prob : Option ℚ
  excitement_index : Option ℚ
deriving DecidableEq

/-- `Game.margin`: `None` when either score is missing, else the signed
difference from this side's perspective. -/
def Game.margin (g : Game) : Option Int :=
  match g.team_points, g.opponent_points with
  | some t, some o => some (t - o)
  | _, _ => none

/-- Body of `Schedule.filter_score` for a single game: after the cutoff
week all score data is cleared, the fixture identity is kept. -/
def filterGame (maxW : Nat) (g : Game) : Game :=
  if maxW < g.week then
    { g with
        team_points := none
        team_line_scores := none
        team_post_win_prob := none
        opponent_points := none
        opponent_line_scores := none
        opponent_post_win_prob := none
        attendance := none
        excitement_index := none }
  else g

/-- `Schedule.filter_score` over the games list of a schedule. -/
def scheduleFilterScore (games : List Game) (maxW : Nat) : List Game :=
  games.map (filterGame maxW)

/-!
Embedding of the two ranking sorts.  Python `sorted` is a stable sort, so
it is modelled by `List.insertionSort` with the matching total preorder
(any two stable sorts of the same preorder agree).
-/

/-- Ordering used by `college_football_rankings.evaluate`:
`sorted(teams.values(), key=lambda obj: obj.power, reverse=True)`. -/
def powDesc (a b : Team × ℚ) : Prop := b.2 ≤ a.2

instance : DecidableRel powDesc := fun a b => (inferInstance : Decidable (b.2 ≤ a.2))

instance : IsTotal (Team × ℚ) powDesc := ⟨fun a b => le_total b.2 a.2⟩

instance : IsTrans (Team × ℚ) powDesc := ⟨fun _ _ _ h1 h2 => le_trans h2 h1⟩

/-- `college_football_rankings.evaluate`, restricted to its sorting step
(the callable has already written each team's power). -/
def rankingsEvaluateSort (teams : List (Team × ℚ)) : List (Team × ℚ) :=
  List.insertionSort powDesc teams

/-- Ordering used by `college_football_ranking.evaluate`:
`sorted(zip(power, teams), reverse=True)` compares `(power, name)` tuples
in reverse lexicographic order. -/
def pairDesc (a b : ℚ × Team) : Prop := b.1 < a.1 ∨ (b.1 = a.1 ∧ b.2 ≤ a.2)

instance : DecidableRel pairDesc := fun a b =>
  (inferInstance : Decidable (b.1 < a.1 ∨ (b.1 = a.1 ∧ b.2 ≤ a.2)))

instance : IsTotal (ℚ × Team) pairDesc :=
  ⟨fun a b => by
    rcases lt_trichotomy a.1 b.1 with h | h | h
    · exact Or.inr (Or.inl h)
    · rcases le_total b.2 a.2 with h2 | h2
      · exact Or.inl (Or.inr ⟨h.symm, h2⟩)
      · exact Or.inr (Or.inr ⟨h, h2⟩)
    · exact Or.inl (Or.inl h)⟩

instance : IsTrans (ℚ × Team) pairDesc :=
  ⟨fun a b c h1 h2 => by
    rcases h1 with h1 | ⟨h1e, h1s⟩
    · rcases h2 with h2 | ⟨h2e, h2s⟩
      · exact Or.inl (lt_trans h2 h1)
      · exact Or.inl (h2e ▸ h1)
    · rcases h2 with h2 | ⟨h2e, h2s⟩
      · exact Or.inl (h1e ▸ h2)
      · exact Or.inr ⟨h2e.trans h1e, le_trans h2s h1s⟩⟩

/-- `college_football_ranking.evaluate`, restricted to its sorting step:
`[team for _, team in sorted(zip(power, teams), reverse=True)]`. -/
def rankingEvaluateSort (tp : PowerMap) : List Team :=
  (List.insertionSort pairDesc (tp.map (fun p => (p.2, p.1)))).map Prod.snd

/-!
Concrete inputs used by witnesses and counterexamples.
-/

/-- One team with a single bye week. -/
def trHalf : TeamsRecords := [("A", [(1, (none, none))])]

/-- Two teams with a single bye week each: no game has been played. -/
def noGamesTR : TeamsRecords := [("A", [(1, (none, none))]), ("B", [(1, (none, none))])]

/-- A team whose only record points at an opponent outside the team set. -/
def cexKeyTR : TeamsRecords := [("A", [(1, (some "X", some 1))])]

/-- Two teams that beat each other once: the relaxation oscillates with
period two and never converges. -/
def oscTR : TeamsRecords :=
  [("A", [(1, (some "B", some 1)), (2, (some "B", some (-1)))]),
   ("B", [(1, (some "A", some (-1))), (2, (some "A", some 1))])]

/-- One of the two oscillation states. -/
def oscU : PowerMap := [("A", 0), ("B", 1)]

/-- The other oscillation state. -/
def oscV : PowerMap := [("A", 1), ("B", 0)]

/-- A random stream whose draws alternate between 0 and 1. -/
def oscStream : Nat → ℚ := fun i => if i % 2 = 0 then 0 else 1

/-- The constant-zero random stream. -/
def szero : Nat → ℚ := fun _ => 0

/-- A stream pointwise equal to `szero` but syntactically different. -/
def szeroAlt : Nat → ℚ := fun _ => qadd 0 0

/-- A raw game with home points recorded but away points missing. -/
def cexRawGame : RawGame := ⟨1, "A", "B", some 7, none⟩

/-- A single played game in week 2 (week 1 becomes a bye placeholder). -/
def aggGames : List RawGame := [⟨2, "A", "B", some 10, some 3⟩]

/-- A concrete played game in week 5, used by witnesses. -/
def gameEx : Game :=
  ⟨2019, 5, "regular", "2019-10-05", false, false, true, some 50000, "Stadium",
   some 21, some [7, 7, 7], some (qdiv 9 10), "B", "SEC",
   some 14, some [7, 7, 0], some (qdiv 1 10), some (qdiv 3 4)⟩

/-- Records of one team used by the filter witness. -/
def filterRecsEx : Records := [(2, (some "B", some 3)), (1, (some "C", some (-2)))]

/-- Team set used by the filter witness. -/
def filterTREx : TeamsRecords := [("A", filterRecsEx)]

/-- The records the aggregator derives for team `"A"` from `aggGames`. -/
def aggRecsA : Records := [(2, (some "B", some 7)), (1, (none, none))]

/-- The full output of the aggregator on `aggGames`. -/
def aggTR : TeamsRecords :=
  [("A", aggRecsA), ("B", [(2, (some "A", some (-7))), (1, (none, none))])]

/-!
The equalities between the transparent rational operations and the
standard ones.
-/

theorem qadd_eq (a b : ℚ) : qadd a b = a + b := (Rat.add_def' a b).symm

theorem qsub_eq (a b : ℚ) : qsub a b = a - b := (Rat.sub_def' a b).symm

theorem qmul_eq (a b : ℚ) : qmul a b = a * b := by
  rw [qmul, Rat.mul_def, Rat.normalize_eq_mkRat]

theorem qdiv_eq (a b : ℚ) : qdiv a b = a / b := by
  rw [qdiv, qmul_eq, Rat.div_def, Rat.inv_def]

theorem convEps_eq : convEps = 1 / 1000000 := by rw [convEps, qdiv_eq]

/-!
Facts about `listMax` and `listMin` (Python `max`/`min` of a list).
-/

theorem le_foldl_max : ∀ (xs : List ℚ) (x : ℚ), x ≤ xs.foldl max x
  | [], x => le_refl x
  | y :: ys, x => le_trans (le_max_left x y) (le_foldl_max ys (max x y))

theorem foldl_min_le : ∀ (xs : List ℚ) (x : ℚ), xs.foldl min x ≤ x
  | [], x => le_refl x
  | y :: ys, x => le_trans (foldl_min_le ys (min x y)) (min_le_left x y)

theorem foldl_max_mem (xs : List ℚ) : ∀ x, xs.foldl max x ∈ x :: xs := by
  induction xs with
  | nil => intro x; simp
  | cons y ys ih =>
    intro x
    have h := ih (max x y)
    simp only [List.foldl_cons]
    rcases List.mem_cons.mp h with h1 | h1
    · rw [h1]
      rcases max_choice x y with hm | hm <;> rw [hm] <;> simp
    · exact List.mem_cons_of_mem _ (List.mem_cons_of_mem _ h1)

theorem foldl_min_mem (xs : List ℚ) : ∀ x, xs.foldl min x ∈ x :: xs := by
  induction xs with
  | nil => intro x; simp
  | cons y ys ih =>
    intro x
    have h := ih (min x y)
    simp only [List.foldl_cons]
    rcases List.mem_cons.mp h with h1 | h1
    · rw [h1]
      rcases min_choice x y with hm | hm <;> rw [hm] <;> simp
    · exact List.mem_cons_of_mem _ (List.mem_cons_of_mem _ h1)

theorem mem_le_foldl_max (xs : List ℚ) : ∀ x y, y ∈ xs → y ≤ xs.foldl max x := by
  induction xs with
  | nil => intro x y h; exact absurd h (List.not_mem_nil y)
  | cons z zs ih =>
    intro x y h
    simp only [List.foldl_cons]
    rcases List.mem_cons.mp h with h1 | h1
    · rw [h1]; exact le_trans (le_max_right x z) (le_foldl_max zs (max x z))
    · exact ih (max x z) y h1

theorem foldl_min_le_mem (xs : List ℚ) : ∀ x y, y ∈ xs → xs.foldl min x ≤ y := by
  induction xs with
  | nil => intro x y h; exact absurd h (List.not_mem_nil y)
  | cons z zs ih =>
    intro x y h
    simp only [List.foldl_cons]
    rcases List.mem_cons.mp h with h1 | h1
    · rw [h1]; exact le_trans (foldl_min_le zs (min x z)) (min_le_right x z)
    · exact ih (min x z) y h1

theorem listMax_spec (l : List ℚ) (m : ℚ) (h : listMax l = some m) :
    m ∈ l ∧ ∀ y ∈ l, y ≤ m := by
  cases l with
  | nil => exact absurd h (by simp [listMax])
  | cons x xs =>
    rw [listMax] at h
    have hm : xs.foldl max x = m := Option.some.inj h
    constructor
    · rw [← hm]; exact foldl_max_mem xs x
    · intro y hy
      rw [← hm]
      rcases List.mem_cons.mp hy with h1 | h1
      · rw [h1]; exact le_foldl_max xs x
      · exact mem_le_foldl_max xs x y h1

theorem listMin_spec (l : List ℚ) (m : ℚ) (h : listMin l = some m) :
    m ∈ l ∧ ∀ y ∈ l, m ≤ y := by
  cases l with
  | nil => exact absurd h (by simp [listMin])
  | cons x xs =>
    rw [listMin] at h
    have hm : xs.foldl min x = m := Option.some.inj h
    constructor
    · rw [← hm]; exact foldl_min_mem xs x
    · intro y hy
      rw [← hm]
      rcases List.mem_cons.mp hy with h1 | h1
      · rw [h1]; exact foldl_min_le xs x
      · exact foldl_min_le_mem xs x y h1

theorem listMax_isSome (l : List ℚ) (h : l ≠ []) : ∃ m, listMax l = some m := by
  cases l with
  | nil => exact absurd rfl h
  | cons x xs => exact ⟨xs.foldl max x, rfl⟩

theorem listMax_const (l : List ℚ) (c : ℚ) (hall : ∀ y ∈ l, y = c) (hne : l ≠ []) :
    listMax l = some c := by
  obtain ⟨m, hm⟩ := listMax_isSome l hne
  obtain ⟨hmem, -⟩ := listMax_spec l m hm
  rw [hm, hall m hmem]

theorem listMin_isSome (l : List ℚ) (h : l ≠ []) : ∃ m, listMin l = some m := by
  cases l with
  | nil => exact absurd rfl h
  | cons x xs => exact ⟨xs.foldl min x, rfl⟩

theorem listMin_const (l : List ℚ) (c : ℚ) (hall : ∀ y ∈ l, y = c) (hne : l ≠ []) :
    listMin l = some c := by
  obtain ⟨m, hm⟩ := listMin_isSome l hne
  obtain ⟨hmem, -⟩ := listMin_spec l m hm
  rw [hm, hall m hmem]

theorem foldl_max_map (f : ℚ → ℚ) (hf : ∀ a b, f (max a b) = max (f a) (f b)) :
    ∀ (xs : List ℚ) (x : ℚ), (xs.map f).foldl max (f x) = f (xs.foldl max x) := by
  intro xs
  induction xs with
  | nil => intro x; rfl
  | cons y ys ih =>
    intro x
    simp only [List.map_cons, List.foldl_cons, ← hf]
    exact ih (max x y)

theorem foldl_min_map (f : ℚ → ℚ) (hf : ∀ a b, f (min a b) = min (f a) (f b)) :
    ∀ (xs : List ℚ) (x : ℚ), (xs.map f).foldl min (f x) = f (xs.foldl min x) := by
  intro xs
  induction xs with
  | nil => intro x; rfl
  | cons y ys ih =>
    intro x
    simp only [List.map_cons, List.foldl_cons, ← hf]
    exact ih (min x y)

theorem listMax_map (f : ℚ → ℚ) (hf : ∀ a b, f (max a b) = max (f a) (f b)) (l : List ℚ) :
    listMax (l.map f) = (listMax l).map f := by
  cases l with
  | nil => rfl
  | cons x xs =>
    simp only [List.map_cons, listMax, Option.map_some']
    rw [foldl_max_map f hf xs x]

theorem listMin_map (f : ℚ → ℚ) (hf : ∀ a b, f (min a b) = min (f a) (f b)) (l : List ℚ) :
    listMin (l.map f) = (listMin l).map f := by
  cases l with
  | nil => rfl
  | cons x xs =>
    simp only [List.map_cons, listMin, Option.map_some']
    rw [foldl_min_map f hf xs x]

/-!
C10 and the convergence discipline of `power` (C1).
-/

/-- C10: on the empty team mapping, `power` neither returns a map nor
raises `EquilibriumError`; it fails with `ValueError`, because `norm`
takes the maximum of an empty value sequence and is undefined there. -/
theorem power_empty_is_valueError (score : Bool) (s : Nat → ℚ) :
    power [] score s = Except.error PyError.valueError ∧ norm [] = none :=
  ⟨rfl, rfl⟩

theorem stepNorm_ok (tr : TeamsRecords) (score : Bool) (tp m : PowerMap)
    (h : stepNorm tr score tp = Except.ok m) :
    ∃ pre, relaxStep tr tp score = Except.ok pre ∧ norm pre = some m := by
  cases hr : relaxStep tr tp score with
  | error e => simp only [stepNorm, hr] at h; exact absurd h (by simp)
  | ok pre =>
    simp only [stepNorm, hr] at h
    cases hn : norm pre with
    | none => simp only [hn] at h; exact absurd h (by simp)
    | some m' =>
      simp only [hn] at h
      exact ⟨pre, rfl, by rw [hn, Except.ok.inj h]⟩

theorem innerLoop_ok_some (tr : TeamsRecords) (score : Bool) :
    ∀ (n : Nat) (tp m : PowerMap), innerLoop tr score n tp = Except.ok (some m) →
      ∃ prev d, stepNorm tr score prev = Except.ok m ∧ maxValDiff prev m = some d ∧ d < convEps := by
  intro n
  induction n with
  | zero =>
    intro tp m h
    exact absurd h (by simp [innerLoop])
  | succ n ih =>
    intro tp m h
    rw [innerLoop] at h
    cases hs : stepNorm tr score tp with
    | error e => simp only [hs] at h; exact absurd h (by simp)
    | ok normed =>
      simp only [hs] at h
      cases hd : maxValDiff tp normed with
      | none => simp only [hd] at h; exact absurd h (by simp)
      | some d =>
        simp only [hd] at h
        by_cases hlt : d < convEps
        · rw [if_pos hlt] at h
          have : normed = m := Option.some.inj (Except.ok.inj h)
          subst this
          exact ⟨tp, d, hs, hd, hlt⟩
        · rw [if_neg hlt] at h
          exact ih normed m h

theorem powerAux_ok (tr : TeamsRecords) (score : Bool) (s : Nat → ℚ) :
    ∀ (t idx : Nat) (m : PowerMap), powerAux tr score s t idx = Except.ok m →
      ∃ prev d, stepNorm tr score prev = Except.ok m ∧ maxValDiff prev m = some d ∧ d < convEps := by
  intro t
  induction t with
  | zero =>
    intro idx m h
    exact absurd h (by simp [powerAux])
  | succ t ih =>
    intro idx m h
    rw [powerAux] at h
    cases hi : innerLoop tr score 100 (initPowers s idx tr) with
    | error e => simp only [hi] at h; exact absurd h (by simp)
    | ok r =>
      simp only [hi] at h
      cases r with
      | none => exact ih (idx + tr.length) m h
      | some d =>
        have : d = m := Except.ok.inj h
        subst this
        exact innerLoop_ok_some tr score 100 (initPowers s idx tr) d hi

/-- C1: `power` returns a map only when that map is the normalized result
of one relaxation sweep from the previous map and the maximum absolute
per-team difference between the two is below `1e-6`; and when all 3
restarts exhaust their 100 relaxation rounds without convergence it
raises `EquilibriumError`. -/
theorem power_returns_only_converged (tr : TeamsRecords) (score : Bool) (s : Nat → ℚ) :
    (∀ m, power tr score s = Except.ok m →
      ∃ prev d, stepNorm tr score prev = Except.ok m ∧ maxValDiff prev m = some d ∧
        d < convEps) ∧
    ((∀ t, t < 3 → innerLoop tr score 100 (initPowers s (t * tr.length) tr) = Except.ok none) →
      power tr score s = Except.error PyError.equilibriumError) := by
  constructor
  · intro m h
    exact powerAux_ok tr score s 3 0 m h
  · intro h
    have h0 := h 0 (by decide)
    have h1 := h 1 (by decide)
    have h2 := h 2 (by decide)
    rw [Nat.zero_mul] at h0
    rw [Nat.one_mul] at h1
    rw [Nat.two_mul] at h2
    rw [power, powerAux, h0, powerAux, Nat.zero_add, h1, powerAux, h2, powerAux]

theorem osc_step_u : stepNorm oscTR false oscU = Except.ok oscV := by decide

theorem osc_step_v : stepNorm oscTR false oscV = Except.ok oscU := by decide

theorem osc_diff_u : maxValDiff oscU oscV = some 1 := by decide

theorem osc_diff_v : maxValDiff oscV oscU = some 1 := by decide

theorem one_not_lt_convEps : ¬ (1 : ℚ) < convEps := by decide

theorem osc_innerLoop (n : Nat) :
    innerLoop oscTR false n oscU = Except.ok none ∧
    innerLoop oscTR false n oscV = Except.ok none := by
  induction n with
  | zero => exact ⟨rfl, rfl⟩
  | succ n ih =>
    constructor
    · rw [innerLoop]
      simp only [osc_step_u, osc_diff_u]
      rw [if_neg one_not_lt_convEps]
      exact ih.2
    · rw [innerLoop]
      simp only [osc_step_v, osc_diff_v]
      rw [if_neg one_not_lt_convEps]
      exact ih.1

theorem power_returns_only_converged_witness :
    (∃ prev d, stepNorm trHalf false prev = Except.ok [("A", qdiv 1 2)] ∧
      maxValDiff prev [("A", qdiv 1 2)] = some d ∧ d < convEps) ∧
    power oscTR false oscStream = Except.error PyError.equilibriumError := by
  constructor
  · exact (power_returns_only_converged trHalf false szero).1 [("A", qdiv 1 2)] (by decide)
  · refine (power_returns_only_converged oscTR false oscStream).2 ?_
    intro t ht
    interval_cases t
    · rw [show initPowers oscStream (0 * oscTR.length) oscTR = oscU from by decide]
      exact (osc_innerLoop 100).1
    · rw [show initPowers oscStream (1 * oscTR.length) oscTR = oscU from by decide]
      exact (osc_innerLoop 100).1
    · rw [show initPowers oscStream (2 * oscTR.length) oscTR = oscU from by decide]
      exact (osc_innerLoop 100).1

/-!
C2: normalization invariant of every returned map.
-/

theorem norm_def (d : PowerMap) :
    norm d =
      match listMax (dvalues d), listMin (dvalues d) with
      | some maxVal, some minVal =>
        if qsub maxVal minVal = 0 then some (d.map (fun p => (p.1, qdiv 1 2)))
        else some (d.map (fun p => (p.1, qdiv (qsub p.2 minVal) (qsub maxVal minVal))))
      | _, _ => none := rfl

theorem norm_ok_cases (d m : PowerMap) (h : norm d = some m) :
    (listMax (dvalues m) = some 1 ∧ listMin (dvalues m) = some 0) ∨
      (∀ v ∈ dvalues m, v = (1 : ℚ) / 2) := by
  rw [norm_def] at h
  cases hmx : listMax (dvalues d) with
  | none =>
    cases hmn : listMin (dvalues d) with
    | none => simp only [hmx, hmn] at h; exact absurd h (by simp)
    | some mn => simp only [hmx, hmn] at h; exact absurd h (by simp)
  | some mx =>
    cases hmn : listMin (dvalues d) with
    | none => simp only [hmx, hmn] at h; exact absurd h (by simp)
    | some mn =>
      simp only [hmx, hmn] at h
      by_cases htie : qsub mx mn = 0
      · rw [if_pos htie] at h
        refine Or.inr ?_
        intro v hv
        rw [← Option.some.inj h] at hv
        simp only [dvalues, List.map_map] at hv
        obtain ⟨p, -, hp⟩ := List.mem_map.mp hv
        rw [← hp]
        show qdiv 1 2 = 1 / 2
        rw [qdiv_eq]
      · rw [if_neg htie] at h
        refine Or.inl ?_
        obtain ⟨hmxmem, hmxub⟩ := listMax_spec (dvalues d) mx hmx
        obtain ⟨hmnmem, hmnlb⟩ := listMin_spec (dvalues d) mn hmn
        have hle : mn ≤ mx := hmnlb mx hmxmem
        have hne : mx - mn ≠ 0 := by rw [← qsub_eq]; exact htie
        have hD : (0 : ℚ) < mx - mn := lt_of_le_of_ne (sub_nonneg.mpr hle) (Ne.symm hne)
        have hfun : (fun v : ℚ => qdiv (qsub v mn) (qsub mx mn)) =
            fun v : ℚ => (v - mn) / (mx - mn) := by
          funext v
          rw [qdiv_eq, qsub_eq, qsub_eq]
        have hsub : Monotone (fun v : ℚ => v - mn) := fun a b hab => sub_le_sub_right hab mn
        have hmono : Monotone (fun v : ℚ => (v - mn) / (mx - mn)) :=
          hsub.div_const (le_of_lt hD)
        have hvals : dvalues m = (dvalues d).map (fun v : ℚ => (v - mn) / (mx - mn)) := by
          rw [← Option.some.inj h]
          simp only [dvalues, List.map_map]
          rw [← hfun]
          rfl
        constructor
        · rw [hvals, listMax_map _ (fun a b => hmono.map_max) (dvalues d), hmx]
          rw [Option.map_some']
          rw [div_self hne]
        · rw [hvals, listMin_map _ (fun a b => hmono.map_min) (dvalues d), hmn]
          rw [Option.map_some']
          rw [sub_self, zero_div]

/-- C2: every map that `power` returns comes out of `norm` (the affine
rescaling `(v - min) / (max - min)`), and is normalized: either its
maximum value is exactly 1 and its minimum exactly 0, or every team's
value is exactly 1/2. -/
theorem power_result_normalized (tr : TeamsRecords) (score : Bool) (s : Nat → ℚ)
    (m : PowerMap) (h : power tr score s = Except.ok m) :
    (∃ pre, norm pre = some m) ∧
    ((listMax (dvalues m) = some 1 ∧ listMin (dvalues m) = some 0) ∨
      (∀ v ∈ dvalues m, v = (1 : ℚ) / 2)) := by
  rw [power] at h
  obtain ⟨prev, d, hsn, -, -⟩ := powerAux_ok tr score s 3 0 m h
  obtain ⟨pre, -, hn⟩ := stepNorm_ok tr score prev m hsn
  exact ⟨⟨pre, hn⟩, norm_ok_cases pre m hn⟩

theorem power_result_normalized_witness :
    (∃ pre, norm pre = some [("A", qdiv 1 2)]) ∧
    ((listMax (dvalues [("A", qdiv 1 2)]) = some 1 ∧
        listMin (dvalues [("A", qdiv 1 2)]) = some 0) ∨
      (∀ v ∈ dvalues [("A", qdiv 1 2)], v = (1 : ℚ) / 2)) :=
  power_result_normalized trHalf false szero [("A", qdiv 1 2)] (by decide)

/-!
C3: behavior of `power` on a team set where no game has been played.
-/

theorem foldlM_contrib_byes (tp : PowerMap) (score : Bool) :
    ∀ (recs : Records), (∀ wr ∈ recs, (wr : Nat × MatchRec).2.2 = none) → ∀ acc : ℚ,
      List.foldlM (fun acc wr => (contrib tp score wr.2).map (fun c => qadd acc c)) acc recs =
        Except.ok acc := by
  intro recs
  induction recs with
  | nil => intro h acc; rfl
  | cons wr rest ih =>
    intro h acc
    obtain ⟨w, opp, bal⟩ := wr
    have hb : bal = none := h (w, opp, bal) (List.mem_cons_self _ _)
    subst hb
    rw [List.foldlM_cons]
    have hacc : qadd acc 0 = acc := by rw [qadd_eq, add_zero]
    show (Except.ok (qadd acc 0) : Except PyError ℚ) >>= _ = _
    rw [hacc]
    exact ih (fun wr hwr => h wr (List.mem_cons_of_mem _ hwr)) acc

theorem teamNewPower_byes (tp : PowerMap) (score : Bool) (recs : Records)
    (h : ∀ wr ∈ recs, (wr : Nat × MatchRec).2.2 = none) :
    teamNewPower tp score recs = Except.ok 0 :=
  foldlM_contrib_byes tp score recs h 0

theorem relaxStep_byes (tp : PowerMap) (score : Bool) :
    ∀ (tr : TeamsRecords), (∀ p ∈ tr, ∀ wr ∈ (p : Team × Records).2, (wr : Nat × MatchRec).2.2 = none) →
      relaxStep tr tp score = Except.ok (tr.map (fun p => (p.1, (0 : ℚ)))) := by
  intro tr
  induction tr with
  | nil => intro h; rfl
  | cons p rest ih =>
    intro h
    have hp := teamNewPower_byes tp score p.2 (h p (List.mem_cons_self _ _))
    have hrest := ih (fun q hq => h q (List.mem_cons_of_mem _ hq))
    rw [relaxStep] at hrest ⊢
    rw [List.mapM_cons, hp, hrest]
    rfl

theorem norm_const (d : PowerMap) (c : ℚ) (hne : d ≠ [])
    (hall : ∀ v ∈ dvalues d, v = c) :
    norm d = some (d.map (fun p => (p.1, qdiv 1 2))) := by
  have hvne : dvalues d ≠ [] := by
    intro hcontra
    exact hne (List.map_eq_nil_iff.mp hcontra)
  have hzero : qsub c c = 0 := by rw [qsub_eq, sub_self]
  rw [norm_def, listMax_const _ c hall hvne, listMin_const _ c hall hvne]
  simp [hzero]

theorem maxValDiff_isSome (d1 d2 : PowerMap) (h1 : d1 ≠ []) (h2 : d2 ≠ []) :
    ∃ d, maxValDiff d1 d2 = some d := by
  cases d1 with
  | nil => exact absurd rfl h1
  | cons x xs =>
    cases d2 with
    | nil => exact absurd rfl h2
    | cons y ys => exact ⟨_, rfl⟩

theorem maxValDiff_self (d : PowerMap) (h : d ≠ []) : maxValDiff d d = some 0 := by
  rw [maxValDiff, List.zipWith_same]
  apply listMax_const
  · intro y hy
    obtain ⟨v, -, hv⟩ := List.mem_map.mp hy
    rw [← hv, qsub_eq, sub_self, abs_zero]
  · intro hcontra
    apply h
    have := List.map_eq_nil_iff.mp hcontra
    exact List.map_eq_nil_iff.mp (by rw [dvalues] at this; exact this)

theorem stepNorm_byes (score : Bool) (tr : TeamsRecords) (tp : PowerMap) (htr : tr ≠ [])
    (h : ∀ p ∈ tr, ∀ wr ∈ (p : Team × Records).2, (wr : Nat × MatchRec).2.2 = none) :
    stepNorm tr score tp = Except.ok (tr.map (fun p => (p.1, qdiv 1 2))) := by
  have hz := relaxStep_byes tp score tr h
  have hnorm : norm (tr.map (fun p => (p.1, (0 : ℚ)))) =
      some (tr.map (fun p => (p.1, qdiv 1 2))) := by
    have := norm_const (tr.map (fun p => (p.1, (0 : ℚ)))) 0
      (by intro hcontra; exact htr (List.map_eq_nil_iff.mp hcontra))
      (by intro v hv
          simp only [dvalues, List.map_map] at hv
          obtain ⟨p, -, hp⟩ := List.mem_map.mp hv
          exact hp.symm)
    rw [this, List.map_map]
    rfl
  simp only [stepNorm, hz, hnorm]

theorem innerLoop_byes (score : Bool) (tr : TeamsRecords) (htr : tr ≠ [])
    (h : ∀ p ∈ tr, ∀ wr ∈ (p : Team × Records).2, (wr : Nat × MatchRec).2.2 = none) :
    ∀ (n : Nat) (tp : PowerMap), tp ≠ [] →
      innerLoop tr score (n + 2) tp = Except.ok (some (tr.map (fun p => (p.1, qdiv 1 2)))) := by
  intro n tp htp
  have hhalfne : (tr.map (fun p => (p.1, qdiv 1 2)) : PowerMap) ≠ [] := by
    intro hcontra; exact htr (List.map_eq_nil_iff.mp hcontra)
  obtain ⟨d, hd⟩ := maxValDiff_isSome tp (tr.map (fun p => (p.1, qdiv 1 2))) htp hhalfne
  show innerLoop tr score (Nat.succ (n + 1)) tp = _
  rw [innerLoop]
  simp only [stepNorm_byes score tr tp htr h, hd]
  by_cases hlt : d < convEps
  · rw [if_pos hlt]
  · rw [if_neg hlt]
    show innerLoop tr score (Nat.succ n) _ = _
    rw [innerLoop]
    simp only [stepNorm_byes score tr _ htr h,
      maxValDiff_self (tr.map (fun p => (p.1, qdiv 1 2))) hhalfne]
    rw [if_pos (by decide : (0 : ℚ) < convEps)]

/-- C3 (amended): on a non-empty team set where no game has been played
(every record's margin is `None`), `power` does not raise
`EquilibriumError`: it returns the degenerate tie map that assigns every
team exactly 1/2 (the relaxation reaches the all-tie fixed point by the
second round of the first restart). -/
theorem power_all_byes (tr : TeamsRecords) (score : Bool) (s : Nat → ℚ) (htr : tr ≠ [])
    (h : ∀ p ∈ tr, ∀ wr ∈ (p : Team × Records).2, (wr : Nat × MatchRec).2.2 = none) :
    power tr score s = Except.ok (tr.map (fun p => (p.1, (1 : ℚ) / 2))) := by
  have hinit : initPowers s 0 tr ≠ [] := by
    intro hcontra
    rw [initPowers] at hcontra
    exact htr (List.enum_eq_nil.mp (List.map_eq_nil_iff.mp hcontra))
  have h100 := innerLoop_byes score tr htr h 98 (initPowers s 0 tr) hinit
  rw [power, powerAux]
  simp only [h100]
  simp only [qdiv_eq]

/-- C3 counterexample: on a concrete two-team set with no played games,
`power` returns the all-0.5 tie map; it does not raise `EquilibriumError`. -/
theorem power_no_games_returns_ties :
    power noGamesTR false szero = Except.ok [("A", qdiv 1 2), ("B", qdiv 1 2)] ∧
    Except.ok [("A", qdiv 1 2), ("B", qdiv 1 2)] ≠
      (Except.error PyError.equilibriumError : Except PyError PowerMap) :=
  ⟨by decide, by decide⟩

theorem power_all_byes_witness :
    power noGamesTR false oscStream = Except.ok (noGamesTR.map (fun p => (p.1, (1 : ℚ) / 2))) :=
  power_all_byes noGamesTR false oscStream (by decide) (by decide)

/-!
C4: treatment of byes and of opponents outside the team set.
-/

/-- C4 counterexample: a team whose only record has a real margin against
an opponent that is not a key of the team set makes `power` raise
`KeyError`; the record is not treated as missing data. -/
theorem power_missing_opponent_raises :
    power cexKeyTR false szero = Except.error PyError.keyError ∧
    ∀ m, Except.error PyError.keyError ≠ (Except.ok m : Except PyError PowerMap) :=
  ⟨by decide, fun m h => Except.noConfusion h⟩

/-- C4 (amended): a record whose margin is `None` (a bye, whatever its
opponent field) contributes exactly 0 to the team's new power; but a
record with a non-`None` margin whose opponent is not a key of the
current team set raises `KeyError` instead of contributing nothing, and
so does a non-`None` margin with no opponent at all. -/
theorem contrib_missing_data (tp : PowerMap) (score : Bool) :
    (∀ opp, contrib tp score (opp, none) = Except.ok 0) ∧
    (∀ r b, dlookup r tp = none →
      contrib tp score (some r, some b) = Except.error PyError.keyError) ∧
    (∀ b, contrib tp score (none, some b) = Except.error PyError.keyError) := by
  refine ⟨fun opp => rfl, fun r b h => ?_, fun b => rfl⟩
  simp only [contrib, h]

theorem contrib_missing_data_witness :
    contrib [("A", (1 : ℚ))] false (some "B", none) = Except.ok 0 ∧
    contrib [("A", (1 : ℚ))] false (some "X", some 1) = Except.error PyError.keyError := by
  obtain ⟨h1, h2, -⟩ := contrib_missing_data [("A", (1 : ℚ))] false
  exact ⟨h1 (some "B"), h2 "X" 1 (by decide)⟩

/-!
C8: determinism of `power` for a fixed random stream.
-/

/-- C8: `power` is a pure function of the team records, the mode flag and
the random stream: two runs with pointwise equal random streams (as
produced by `np.random.RandomState` under a fixed non-`None` seed) give
identical results, converged map and error outcome alike. -/
theorem power_deterministic (tr : TeamsRecords) (score : Bool) (s1 s2 : Nat → ℚ)
    (h : ∀ i, s1 i = s2 i) : power tr score s1 = power tr score s2 := by
  rw [funext h]

theorem power_deterministic_witness :
    power trHalf false szero = power trHalf false szeroAlt :=
  power_deterministic trHalf false szero szeroAlt (fun _ => rfl)

/-!
C5: the two week filters.
-/

theorem dlookup_map_values {κ ν μ : Type} [DecidableEq κ] (f : ν → μ) (l : List (κ × ν))
    (k : κ) : dlookup k (l.map (fun p => (p.1, f p.2))) = (dlookup k l).map f := by
  induction l with
  | nil => rfl
  | cons p rest ih =>
    obtain ⟨k', v⟩ := p
    simp only [List.map_cons, dlookup]
    by_cases h : k = k'
    · rw [if_pos h, if_pos h]; rfl
    · rw [if_neg h, if_neg h]; exact ih

theorem dlookup_map_kv {κ ν μ : Type} [DecidableEq κ] (f : κ → ν → μ) (l : List (κ × ν))
    (k : κ) : dlookup k (l.map (fun p => (p.1, f p.1 p.2))) = (dlookup k l).map (f k) := by
  induction l with
  | nil => rfl
  | cons p rest ih =>
    obtain ⟨k', v⟩ := p
    simp only [List.map_cons, dlookup]
    by_cases h : k = k'
    · rw [if_pos h, if_pos h, Option.map_some']
      rw [h]
    · rw [if_neg h, if_neg h]; exact ih

/-- C5 (amended): `filter_week` replaces every record of a week after the
cutoff by `(None, None)` — erasing the opponent identity along with the
margin — and leaves weeks up to the cutoff unchanged;
`Schedule.filter_score` clears only the score data of games after the
cutoff (their margin becomes `None`, the opponent and week are
preserved) and leaves games up to the cutoff entirely unchanged. -/
theorem week_filter_semantics :
    (∀ (tr : TeamsRecords) (w : Nat) (n : Team) (recs : Records),
      dlookup n tr = some recs →
      ∃ recs', dlookup n (filterWeek tr w) = some recs' ∧
        ∀ k, dlookup k recs' =
          (dlookup k recs).map (fun r => if w < k then ((none, none) : MatchRec) else r)) ∧
    (∀ (g : Game) (w : Nat),
      (w < g.week →
        (filterGame w g).opponent = g.opponent ∧ (filterGame w g).week = g.week ∧
        (filterGame w g).team_points = none ∧ (filterGame w g).opponent_points = none ∧
        (filterGame w g).margin = none) ∧
      (g.week ≤ w → filterGame w g = g)) := by
  constructor
  · intro tr w n recs h
    refine ⟨recs.map (fun q => (q.1, if w < q.1 then ((none, none) : MatchRec) else q.2)),
      ?_, ?_⟩
    · rw [filterWeek, dlookup_map_values (fun recs : Records =>
        recs.map (fun q => (q.1, if w < q.1 then ((none, none) : MatchRec) else q.2))) tr n, h,
        Option.map_some']
    · intro k
      exact dlookup_map_kv (fun k r => if w < k then ((none, none) : MatchRec) else r) recs k
  · intro g w
    constructor
    · intro hw
      rw [filterGame, if_pos hw]
      exact ⟨rfl, rfl, rfl, rfl, rfl⟩
    · intro hw
      rw [filterGame, if_neg (not_lt.mpr hw)]

/-- C5 counterexample: `filter_week` does not preserve the opponent of a
filtered record — week 2 filtered at cutoff 1 loses its opponent `"B"`. -/
theorem filter_week_erases_opponent :
    filterWeek [("A", [(2, (some "B", some 3))])] 1 =
      [("A", [(2, ((none : Option Team), (none : Option Int)))])] ∧
    (none : Option Team) ≠ some "B" :=
  ⟨by decide, by decide⟩

theorem week_filter_semantics_witness :
    (∃ recs', dlookup "A" (filterWeek filterTREx 1) = some recs' ∧
      ∀ k, dlookup k recs' =
        (dlookup k filterRecsEx).map
          (fun r => if 1 < k then ((none, none) : MatchRec) else r)) ∧
    ((filterGame 1 gameEx).opponent = gameEx.opponent ∧ (filterGame 1 gameEx).week = gameEx.week ∧
      (filterGame 1 gameEx).team_points = none ∧ (filterGame 1 gameEx).opponent_points = none ∧
      (filterGame 1 gameEx).margin = none) ∧
    filterGame 6 gameEx = gameEx :=
  ⟨week_filter_semantics.1 filterTREx 1 "A" filterRecsEx (by decide),
   (week_filter_semantics.2 gameEx 1).1 (by decide),
   (week_filter_semantics.2 gameEx 6).2 (by decide)⟩

/-!
C6: margins derived from raw games.
-/

/-- C6 (amended): `Game.margin` is the side's score minus the other
side's score and is `None` when either score is missing; but
`create_teams_records_dict` checks only the home score: when the home
score is missing both margins are `None` (with opponents still
recorded), and a game with a home score but no away score raises
`TypeError` instead of yielding a `None` margin. -/
theorem margin_semantics :
    (∀ g : Game, ((g.team_points = none ∨ g.opponent_points = none) → g.margin = none) ∧
      (∀ a b : Int, g.team_points = some a → g.opponent_points = some b →
        g.margin = some (a - b))) ∧
    (∀ ap : Option Int, gameDiffs none ap = Except.ok (none, none)) ∧
    (∀ h : Int, gameDiffs (some h) none = Except.error PyError.typeError) ∧
    (∀ h a : Int, gameDiffs (some h) (some a) = Except.ok (some (h - a), some (a - h))) ∧
    (∀ (ht aw : Team) (ap : Option Int), ht ≠ aw →
      createTeamsRecords [⟨1, ht, aw, none, ap⟩] =
        Except.ok [(ht, [(1, (some aw, none))]), (aw, [(1, (some ht, none))])]) := by
  refine ⟨?_, fun ap => rfl, fun h => rfl, fun h a => rfl, ?_⟩
  · intro g
    constructor
    · intro hcase
      rcases hcase with hc | hc
      · rw [Game.margin, hc]
      · rw [Game.margin, hc]
        cases g.team_points <;> rfl
    · intro a b ha hb
      rw [Game.margin, ha, hb]
  · intro ht aw ap hne
    have hne' : ¬ (aw = ht) := fun hcontra => hne hcontra.symm
    simp [createTeamsRecords, processGames, gameDiffs, insertRecord, dlookup, dinsert,
      maxWeek, gapFill, fillOne, hne']

/-- C6 counterexample: a raw game with home points recorded but away
points missing makes `create_teams_records_dict` raise `TypeError`
rather than produce records with `None` margins. -/
theorem create_home_some_away_none_raises :
    createTeamsRecords [cexRawGame] = Except.error PyError.typeError ∧
    ∀ tr, Except.error PyError.typeError ≠ (Except.ok tr : Except PyError TeamsRecords) :=
  ⟨by decide, fun tr h => Except.noConfusion h⟩

theorem margin_semantics_witness :
    gameEx.margin = some 7 ∧
    createTeamsRecords [⟨1, "A", "B", none, some 3⟩] =
      Except.ok [("A", [(1, (some "B", none))]), ("B", [(1, (some "A", none))])] :=
  ⟨(margin_semantics.1 gameEx).2 21 14 rfl rfl,
   margin_semantics.2.2.2.2 "A" "B" (some 3) (by decide)⟩

/-!
C7: the two ranking sorts.
-/

theorem filter_orderedInsert_pos {α : Type} (r : α → α → Prop) [DecidableRel r]
    (p : α → Bool) (x : α) (hx : p x = true) (hcomp : ∀ b, p b = true → r x b) :
    ∀ l : List α, (List.orderedInsert r x l).filter p = x :: l.filter p := by
  intro l
  induction l with
  | nil => simp [List.orderedInsert, hx]
  | cons b bs ih =>
    rw [List.orderedInsert]
    by_cases hr : r x b
    · rw [if_pos hr]
      simp [hx]
    · rw [if_neg hr]
      have hpb : p b = false := by
        cases hpb : p b
        · rfl
        · exact absurd (hcomp b hpb) hr
      rw [List.filter_cons_of_neg (by simp [hpb]), List.filter_cons_of_neg (by simp [hpb])]
      exact ih

theorem filter_orderedInsert_neg {α : Type} (r : α → α → Prop) [DecidableRel r]
    (p : α → Bool) (x : α) (hx : p x = false) :
    ∀ l : List α, (List.orderedInsert r x l).filter p = l.filter p := by
  intro l
  induction l with
  | nil => simp [List.orderedInsert, hx]
  | cons b bs ih =>
    rw [List.orderedInsert]
    by_cases hr : r x b
    · rw [if_pos hr]
      rw [List.filter_cons_of_neg (by simp [hx])]
    · rw [if_neg hr]
      cases hpb : p b
      · rw [List.filter_cons_of_neg (by simp [hpb]), List.filter_cons_of_neg (by simp [hpb])]
        exact ih
      · rw [List.filter_cons_of_pos (by simp [hpb]), List.filter_cons_of_pos (by simp [hpb])]
        rw [ih]

theorem insertionSort_stable_filter {α : Type} (r : α → α → Prop) [DecidableRel r]
    (p : α → Bool) (hcomp : ∀ a b, p a = true → p b = true → r a b) :
    ∀ l : List α, (List.insertionSort r l).filter p = l.filter p := by
  intro l
  induction l with
  | nil => rfl
  | cons a as ih =>
    rw [List.insertionSort]
    cases ha : p a
    · rw [filter_orderedInsert_neg r p a ha, ih, List.filter_cons_of_neg (by simp [ha])]
    · rw [filter_orderedInsert_pos r p a ha (fun b hb => hcomp a b ha hb), ih,
        List.filter_cons_of_pos (by simp [ha])]

/-- C7 (amended): `college_football_rankings.evaluate` sorts by power
descending, deterministically and stably (teams of equal power keep
their input order, expressed by invariance of every equal-power filter);
`college_football_ranking.evaluate` instead sorts `(power, name)` pairs
in reverse lexicographic order, so equal-power teams appear in
descending name order, not input order. -/
theorem evaluate_sort_semantics :
    (∀ l : List (Team × ℚ),
      (rankingsEvaluateSort l).Perm l ∧
      List.Pairwise (fun a b : Team × ℚ => b.2 ≤ a.2) (rankingsEvaluateSort l) ∧
      (∀ q : ℚ, (rankingsEvaluateSort l).filter (fun x => decide (x.2 = q)) =
        l.filter (fun x => decide (x.2 = q)))) ∧
    (∀ tp : PowerMap,
      (rankingEvaluateSort tp).Perm (tp.map Prod.fst) ∧
      List.Pairwise pairDesc (List.insertionSort pairDesc (tp.map (fun p => (p.2, p.1))))) := by
  constructor
  · intro l
    refine ⟨List.perm_insertionSort powDesc l, List.sorted_insertionSort powDesc l, ?_⟩
    intro q
    apply insertionSort_stable_filter powDesc
    intro a b ha hb
    have ha' : a.2 = q := of_decide_eq_true ha
    have hb' : b.2 = q := of_decide_eq_true hb
    show b.2 ≤ a.2
    rw [ha', hb']
  · intro tp
    constructor
    · have h1 : (List.insertionSort pairDesc (tp.map (fun p => (p.2, p.1)))).Perm
          (tp.map (fun p => (p.2, p.1))) := List.perm_insertionSort pairDesc _
      have h2 := h1.map Prod.snd
      rw [List.map_map] at h2
      exact h2
    · exact List.sorted_insertionSort pairDesc _

/-- C7 counterexample: with two equal-power teams in input order
`A, B`, `college_football_ranking.evaluate` outputs `[B, A]`: ties are
not broken by stable input order. -/
theorem ranking_evaluate_tie_not_input_order :
    rankingEvaluateSort [("A", qdiv 1 2), ("B", qdiv 1 2)] = ["B", "A"] ∧
    (["B", "A"] : List Team) ≠ ["A", "B"] := by
  constructor
  · have hBA : ¬ (("B" : String) ≤ "A") := by
      rw [String.le_iff_toList_le]; decide
    have hpd : ¬ pairDesc (qdiv 1 2, "A") (qdiv 1 2, "B") := by
      rw [pairDesc]
      intro h
      rcases h with h | ⟨-, h⟩
      · exact lt_irrefl _ h
      · exact hBA h
    simp [rankingEvaluateSort, List.insertionSort, List.orderedInsert, hpd]
  · decide

/-!
C9: the schedule aggregator.
-/

theorem dlookup_dinsert {κ ν : Type} [DecidableEq κ] (k k' : κ) (v : ν) :
    ∀ d : List (κ × ν), dlookup k' (dinsert k v d) =
      if k' = k then some v else dlookup k' d := by
  intro d
  induction d with
  | nil =>
    by_cases h : k' = k
    · simp [dinsert, dlookup, h]
    · simp [dinsert, dlookup, h]
  | cons p rest ih =>
    obtain ⟨k0, v0⟩ := p
    by_cases h0 : k = k0
    · by_cases h : k' = k
      · simp [dinsert, dlookup, h0, h, h.trans h0]
      · have hk0 : ¬ (k' = k0) := fun hc => h (hc.trans h0.symm)
        simp [dinsert, dlookup, h0, h, hk0]
    · by_cases h : k' = k0
      · have hk : ¬ (k' = k) := fun hc => h0 (hc.symm.trans h)
        have hk0 : ¬ (k0 = k) := fun hc => h0 hc.symm
        simp [dinsert, dlookup, h0, h, hk, hk0]
      · simp [dinsert, dlookup, h0, h, ih]

theorem dlookup_insertRecord (d : TeamsRecords) (t t' : Team) (w : Nat) (r : MatchRec) :
    dlookup t' (insertRecord d t w r) =
      if t' = t then
        some (dinsert w r ((dlookup t d).getD []))
      else dlookup t' d := by
  rw [insertRecord]
  cases hd : dlookup t d with
  | none => rw [dlookup_dinsert]; rfl
  | some recs => rw [dlookup_dinsert]; rfl

theorem dlookup_fillOne (recs : Records) (i w : Nat) :
    dlookup w (fillOne recs i) =
      match dlookup w recs with
      | some v => some v
      | none => if w = i then some ((none, none) : MatchRec) else none := by
  rw [fillOne]
  cases hi : dlookup i recs with
  | some v =>
    cases hw : dlookup w recs with
    | some v' => rfl
    | none =>
      by_cases hwi : w = i
      · rw [hwi] at hw
        rw [hw] at hi
        exact Option.noConfusion hi
      · rw [if_neg hwi]
  | none =>
    rw [dlookup_dinsert]
    by_cases hwi : w = i
    · rw [if_pos hwi, hwi, hi]
      simp
    · rw [if_neg hwi]
      cases hw : dlookup w recs with
      | some v' => rfl
      | none => rw [if_neg hwi]

theorem dlookup_gapFill (recs : Records) :
    ∀ (lastWeek w : Nat), dlookup w (gapFill recs lastWeek) =
      match dlookup w recs with
      | some v => some v
      | none => if 1 ≤ w ∧ w ≤ lastWeek then some ((none, none) : MatchRec) else none := by
  intro lastWeek
  induction lastWeek with
  | zero =>
    intro w
    have h0 : gapFill recs 0 = recs := rfl
    rw [h0]
    cases hw : dlookup w recs with
    | some v => rfl
    | none =>
      rw [if_neg (show ¬ (1 ≤ w ∧ w ≤ 0) by omega)]
  | succ L ih =>
    intro w
    have hstep : gapFill recs (L + 1) = fillOne (gapFill recs L) (1 + L) := by
      rw [gapFill, gapFill, List.range'_1_concat, List.foldl_append]
      rfl
    rw [hstep, dlookup_fillOne, ih w]
    cases hw : dlookup w recs with
    | some v => rfl
    | none =>
      by_cases h1 : 1 ≤ w ∧ w ≤ L
      · rw [if_pos h1, if_pos (show 1 ≤ w ∧ w ≤ L + 1 by omega)]
      · rw [if_neg h1]
        by_cases h2 : w = 1 + L
        · rw [if_pos h2, if_pos (show 1 ≤ w ∧ w ≤ L + 1 by omega)]
        · rw [if_neg h2, if_neg (show ¬ (1 ≤ w ∧ w ≤ L + 1) by omega)]

theorem processGames_lookup_isSome (gs : List RawGame) :
    ∀ (d d' : TeamsRecords), processGames gs d = Except.ok d' → ∀ t : Team,
      (dlookup t d').isSome ↔ ((dlookup t d).isSome ∨ appearsIn t gs) := by
  induction gs with
  | nil =>
    intro d d' h t
    have hdd : d = d' := Except.ok.inj h
    subst hdd
    simp [appearsIn]
  | cons g rest ih =>
    intro d d' h t
    rw [processGames] at h
    cases hg : gameDiffs g.home_points g.away_points with
    | error e => simp only [hg] at h; exact absurd h (by simp)
    | ok p =>
      obtain ⟨hd, ad⟩ := p
      simp only [hg] at h
      rw [ih _ d' h t]
      have happ : appearsIn t (g :: rest) ↔
          ((g.home_team = t ∨ g.away_team = t) ∨ appearsIn t rest) := by
        simp [appearsIn]
      rw [happ]
      rw [dlookup_insertRecord]
      by_cases ha : t = g.away_team
      · simp [ha]
      · rw [if_neg ha]
        rw [dlookup_insertRecord]
        by_cases hh : t = g.home_team
        · simp [hh]
        · rw [if_neg hh]
          have h1 : ¬ (g.home_team = t) := fun hc => hh hc.symm
          have h2 : ¬ (g.away_team = t) := fun hc => ha hc.symm
          simp [h1, h2]

theorem processGames_week_origin (gs : List RawGame) :
    ∀ (d d' : TeamsRecords), processGames gs d = Except.ok d' →
      ∀ (t : Team) (recs' : Records) (w : Nat),
        dlookup t d' = some recs' → (dlookup w recs').isSome →
        (∃ recs, dlookup t d = some recs ∧ (dlookup w recs).isSome) ∨ hasGameAt t w gs := by
  induction gs with
  | nil =>
    intro d d' h t recs' w hl hw
    have hdd : d = d' := Except.ok.inj h
    subst hdd
    exact Or.inl ⟨recs', hl, hw⟩
  | cons g rest ih =>
    intro d d' h t recs' w hl hw
    rw [processGames] at h
    cases hg : gameDiffs g.home_points g.away_points with
    | error e => simp only [hg] at h; exact absurd h (by simp)
    | ok p =>
      obtain ⟨hd, ad⟩ := p
      simp only [hg] at h
      rcases ih _ d' h t recs' w hl hw with ⟨recs, hrecs, hwk⟩ | hgame
      · rw [dlookup_insertRecord] at hrecs
        by_cases ha : t = g.away_team
        · rw [if_pos ha] at hrecs
          rw [← Option.some.inj hrecs, dlookup_dinsert] at hwk
          by_cases hwg : w = g.week
          · exact Or.inr ⟨g, List.mem_cons_self g rest, hwg.symm, Or.inr ha.symm⟩
          · rw [if_neg hwg] at hwk
            rw [dlookup_insertRecord] at hwk
            by_cases hh : g.away_team = g.home_team
            · rw [if_pos hh] at hwk
              rw [Option.getD_some, dlookup_dinsert, if_neg hwg] at hwk
              cases hd0 : dlookup g.home_team d with
              | none => rw [hd0] at hwk; exact absurd hwk (by simp [dlookup])
              | some recs0 =>
                rw [hd0] at hwk
                exact Or.inl ⟨recs0, by rw [ha, hh]; exact hd0, hwk⟩
            · rw [if_neg hh] at hwk
              cases hd0 : dlookup g.away_team d with
              | none => rw [hd0] at hwk; exact absurd hwk (by simp [dlookup])
              | some recs0 =>
                rw [hd0] at hwk
                exact Or.inl ⟨recs0, by rw [ha]; exact hd0, hwk⟩
        · rw [if_neg ha] at hrecs
          rw [dlookup_insertRecord] at hrecs
          by_cases hh : t = g.home_team
          · rw [if_pos hh] at hrecs
            rw [← Option.some.inj hrecs, dlookup_dinsert] at hwk
            by_cases hwg : w = g.week
            · exact Or.inr ⟨g, List.mem_cons_self g rest, hwg.symm, Or.inl hh.symm⟩
            · rw [if_neg hwg] at hwk
              cases hd0 : dlookup g.home_team d with
              | none => rw [hd0] at hwk; exact absurd hwk (by simp [dlookup])
              | some recs0 =>
                rw [hd0] at hwk
                exact Or.inl ⟨recs0, by rw [hh]; exact hd0, hwk⟩
          · rw [if_neg hh] at hrecs
            exact Or.inl ⟨recs, hrecs, hwk⟩
      · obtain ⟨g', hg', hp⟩ := hgame
        exact Or.inr ⟨g', List.mem_cons_of_mem g hg', hp⟩

/-- C9: for every game list on which the aggregator succeeds, its output
contains exactly the teams appearing in at least one game, and each such
team's record map has an entry for every week `1..maxWeek`, with weeks
not covered by one of the team's games holding the `(None, None)` bye
placeholder. -/
theorem create_records_totality (games : List RawGame) (tr : TeamsRecords)
    (h : createTeamsRecords games = Except.ok tr) :
    (∀ t : Team, (dlookup t tr).isSome ↔ appearsIn t games) ∧
    (∀ (t : Team) (recs : Records), dlookup t tr = some recs →
      ∀ w : Nat, 1 ≤ w → w ≤ maxWeek games → (dlookup w recs).isSome) ∧
    (∀ (t : Team) (recs : Records), dlookup t tr = some recs →
      ∀ w : Nat, 1 ≤ w → w ≤ maxWeek games → ¬ hasGameAt t w games →
        dlookup w recs = some ((none, none) : MatchRec)) := by
  rw [createTeamsRecords] at h
  cases hp : processGames games [] with
  | error e => simp only [hp] at h; exact absurd h (by simp)
  | ok d =>
    simp only [hp] at h
    have htr : tr = d.map (fun p => (p.1, gapFill p.2 (maxWeek games))) :=
      (Except.ok.inj h).symm
    subst htr
    refine ⟨?_, ?_, ?_⟩
    · intro t
      rw [dlookup_map_values (fun recs => gapFill recs (maxWeek games)) d t]
      have hiff := processGames_lookup_isSome games [] d hp t
      rw [show dlookup t ([] : TeamsRecords) = none from rfl] at hiff
      simp only [Option.isSome_none, Bool.false_eq_true, false_or] at hiff
      have hmap : ((dlookup t d).map (fun recs => gapFill recs (maxWeek games))).isSome =
          (dlookup t d).isSome := by
        cases dlookup t d <;> rfl
      rw [hmap]
      exact hiff
    · intro t recs hrecs w h1 h2
      rw [dlookup_map_values (fun recs => gapFill recs (maxWeek games)) d t] at hrecs
      cases hd0 : dlookup t d with
      | none => rw [hd0] at hrecs; exact absurd hrecs (by simp)
      | some recs0 =>
        rw [hd0, Option.map_some'] at hrecs
        have hr : recs = gapFill recs0 (maxWeek games) := (Option.some.inj hrecs).symm
        subst hr
        rw [dlookup_gapFill]
        cases hw0 : dlookup w recs0 with
        | some v => rfl
        | none => rw [if_pos ⟨h1, h2⟩]; rfl
    · intro t recs hrecs w h1 h2 hng
      rw [dlookup_map_values (fun recs => gapFill recs (maxWeek games)) d t] at hrecs
      cases hd0 : dlookup t d with
      | none => rw [hd0] at hrecs; exact absurd hrecs (by simp)
      | some recs0 =>
        rw [hd0, Option.map_some'] at hrecs
        have hr : recs = gapFill recs0 (maxWeek games) := (Option.some.inj hrecs).symm
        subst hr
        rw [dlookup_gapFill]
        cases hw0 : dlookup w recs0 with
        | some v =>
          exfalso
          apply hng
          have horigin := processGames_week_origin games [] d hp t recs0 w hd0
            (by rw [hw0]; rfl)
          rcases horigin with ⟨recs1, hrecs1, -⟩ | hg
          · exact absurd hrecs1 (by simp [dlookup])
          · exact hg
        | none => rw [if_pos ⟨h1, h2⟩]

theorem create_records_totality_witness :
    ((dlookup "A" aggTR).isSome ↔ appearsIn "A" aggGames) ∧
    (dlookup 1 aggRecsA).isSome = true ∧
    dlookup 1 aggRecsA = some ((none, none) : MatchRec) :=
  ⟨(create_records_totality aggGames aggTR (by decide)).1 "A",
   (create_records_totality aggGames aggTR (by decide)).2.1 "A" aggRecsA (by decide) 1
     (by decide) (by decide),
   (create_records_totality aggGames aggTR (by decide)).2.2 "A" aggRecsA (by decide) 1
     (by decide) (by decide) (by decide)⟩
